import Mathlib

/-!
Verification of the resilient streaming speech-transcription session manager
(`modules/speech_to_text.py`): the segment deduplicator, the cancellation
classifier, the paced WAV feeder, and the supervisor/restart loop of
`transcribe_with_diarization_local`.

Times are modelled as rationals (seconds), frame counts as naturals, and
Python `int(...)` truncation as `pyInt`.
-/

namespace SttLocal

/-- Default `MAX_RESTARTS` (env `LOCAL_STT_MAX_RESTARTS`, default "8"). -/
def MAX_RESTARTS : ℕ := 8

/-- Default `OVERLAP_S`: 1.5 seconds. -/
def OVERLAP_S : ℚ := 3 / 2

/-- Default `DEDUP_EPS_S`: 0.08 seconds. -/
def DEDUP_EPS_S : ℚ := 2 / 25

/-- The scale `scale_100ns = 10_000_000`: 100-nanosecond units per second. -/
def scale_100ns : ℚ := 10000000

/-- Python `int(q)`: truncation toward zero of a rational. -/
def pyInt (q : ℚ) : ℤ := if 0 ≤ q then ⌊q⌋ else -⌊-q⌋

/-- A transcript segment as appended to `transcription_results`
(`offset`/`duration` in 100 ns units, as stored by the code). -/
structure TranscriptSegment where
  speaker_id : Option String
  text : String
  offset : ℤ
  duration : ℤ
deriving DecidableEq

/-- The result reasons the SDK can deliver; the handler only acts on
`RecognizedSpeech`. -/
inductive ResultReason
  | RecognizedSpeech
  | NoMatch
  | Canceled
deriving DecidableEq

/-- The fields of a recognition result read by `transcribed_cb`:
`reason`, `text`, `offset` (100 ns), `duration` (100 ns), `speaker_id`. -/
structure RecognitionResult where
  reason : ResultReason
  text : String
  offset : ℤ
  duration : ℤ
  speaker_id : Option String
deriving DecidableEq

/-- The deduplicator's state: the growing `transcription_results` list and
the acceptance watermark `accepted_last_end_s` (initialised to `-1.0`). -/
structure DedupState where
  transcription_results : List TranscriptSegment
  accepted_last_end_s : ℚ
deriving DecidableEq

/-- Initial deduplicator state: `transcription_results = []`,
`accepted_last_end_s = -1.0`. -/
def initDedup : DedupState :=
  { transcription_results := [], accepted_last_end_s := (-1 : ℚ) }

/-- Python `s.strip()`: remove whitespace from both ends of a string
(structural on the character list, unlike `String.trim`). -/
def pyStrip (s : String) : String :=
  { data := ((s.data.dropWhile Char.isWhitespace).reverse.dropWhile
      Char.isWhitespace).reverse }

/-- The handler `transcribed_cb` (speech_to_text.py lines 249-283), as a pure state
transformer on the deduplicator state. `none` models `evt.result` being
absent. `session_base_s` is the sub-session's base offset in seconds. -/
def transcribed_cb (session_base_s : ℚ) (st : DedupState)
    (result : Option RecognitionResult) : DedupState :=
  match result with
  | none => st
  | some r =>
    if r.reason ≠ ResultReason.RecognizedSpeech then st
    else
      let text := pyStrip r.text
      if text = "" then st
      else
        let offset_100ns : ℤ := r.offset
        let duration_100ns : ℤ := r.duration
        let seg_start_s : ℚ := (offset_100ns : ℚ) / scale_100ns + session_base_s
        let seg_end_s : ℚ :=
          ((offset_100ns + duration_100ns : ℤ) : ℚ) / scale_100ns + session_base_s
        if seg_end_s ≤ st.accepted_last_end_s + DEDUP_EPS_S then st
        else
          { transcription_results := st.transcription_results ++
              [{ speaker_id := r.speaker_id
                 text := text
                 offset := pyInt (seg_start_s * scale_100ns)
                 duration := pyInt ((seg_end_s - seg_start_s) * scale_100ns) }]
            accepted_last_end_s := max st.accepted_last_end_s seg_end_s }

/-- Fold a list of (base offset, recognition event) pairs through
`transcribed_cb`, in arrival order. -/
def processEvents (pairs : List (ℚ × Option RecognitionResult))
    (st : DedupState) : DedupState :=
  pairs.foldl (fun d p => transcribed_cb p.1 d p.2) st

/-- Stored global end times (`offset + duration`, 100 ns units) of a
segment list, in append order. -/
def segEnds (l : List TranscriptSegment) : List ℤ :=
  l.map (fun s => s.offset + s.duration)

/-- Invariant carried by the deduplicator state: stored end times are
strictly increasing and all at most `watermark * scale_100ns`. -/
def dedupInv (st : DedupState) : Prop :=
  (segEnds st.transcription_results).Pairwise (· < ·) ∧
    ∀ x ∈ segEnds st.transcription_results,
      (x : ℚ) ≤ st.accepted_last_end_s * scale_100ns

/-- An event (with base offset) is well-formed when the base offset,
result offset and result duration are non-negative. -/
def eventOk (p : ℚ × Option RecognitionResult) : Prop :=
  0 ≤ p.1 ∧ ∀ r, p.2 = some r → 0 ≤ r.offset ∧ 0 ≤ r.duration

/-- Python `s.lower()`: lowercase every character (structural on the
character list, unlike `String.toLower`). -/
def pyLower (s : String) : String :=
  { data := s.data.map Char.toLower }

/-- Whether `hay` contains `needle`, mirroring Python's `in` on strings. -/
def strContains (hay needle : String) : Bool :=
  hay.data.tails.any (fun t => needle.data.isPrefixOf t)

/-- Outcome of `canceled_cb`: the values of the nonlocal flags
`restart_needed` (only ever set to `True` by this handler) and
`restart_reason` after the handler ran. -/
structure CancelDecision where
  restart_needed : Bool
  restart_reason : Option String
deriving DecidableEq

/-- The handler `canceled_cb` (speech_to_text.py lines 301-319): classify the
cancellation's `error_details` string (`none` models an absent string).
The message is lowercased (`_safe_lower`) and matched by substring. -/
def canceled_cb (error_details : Option String) : CancelDecision :=
  let msg := pyLower (error_details.getD "")
  if strContains msg "client buffer exceeded" then
    { restart_needed := true, restart_reason := some "client_buffer_exceeded" }
  else if strContains msg "websocket" || strContains msg "connection" ||
      strContains msg "timeout" then
    { restart_needed := true, restart_reason := some "connection_or_timeout" }
  else
    { restart_needed := false
      restart_reason := some (if error_details.getD "" = "" then "canceled"
        else error_details.getD "") }

/-- What one sub-session delivered to the supervisor: the recognition
events handled by `transcribed_cb`, the feeder's `frames_sent`,
`finished` and `error` fields (`fed_error` holds the exception type name),
and the `restart_needed`/`restart_reason` flags as set by the
`canceled_cb` handler or the hang watchdog while the session ran. -/
structure SessionOutcome where
  events : List (Option RecognitionResult)
  frames_sent : ℕ
  finished : Bool
  fed_error : Option String
  restart_needed0 : Bool
  restart_reason0 : Option String
deriving DecidableEq

/-- Supervisor state carried across sub-sessions of one job:
`cursor_frame`, `restarts`, `backoff_s`, plus the dedup state and (as an
observation of `time.sleep(backoff_s)`) the list of slept backoffs. -/
structure SupState where
  cursor_frame : ℕ
  restarts : ℕ
  backoff_s : ℚ
  slept : List ℚ
  dedup : DedupState
deriving DecidableEq

/-- Initial supervisor state (speech_to_text.py lines 205-210):
`cursor_frame = 0`, `restarts = 0`, `backoff_s = 1.0`, empty results,
watermark `-1.0`. -/
def initState : SupState :=
  { cursor_frame := 0, restarts := 0, backoff_s := 1, slept := [], dedup := initDedup }

/-- The rollback window `overlap_frames = int(OVERLAP_S * rate)` (speech_to_text.py line 367). -/
def overlap_frames (rate : ℕ) : ℕ :=
  (pyInt (OVERLAP_S * (rate : ℚ))).toNat

/-- Result of driving the supervisor loop on a trace of sub-session
outcomes: normal return of `transcription_results`, the fatal
`RuntimeError("Too many restarts …")`, or the trace ran out while the
loop would continue. -/
inductive RunResult
  | ok (segs : List TranscriptSegment) (final : SupState)
  | tooManyRestarts (reason : Option String) (final : SupState)
  | outOfTrace (final : SupState)
deriving DecidableEq

/-- The supervisor state embedded in a `RunResult`. -/
def RunResult.state : RunResult → SupState
  | .ok _ st => st
  | .tooManyRestarts _ st => st
  | .outOfTrace st => st

/-- The base offset `session_base_s = cursor_frame / rate` (speech_to_text.py line 214). -/
def sessionBase (rate : ℕ) (st : SupState) : ℚ :=
  (st.cursor_frame : ℚ) / (rate : ℚ)

/-- The dedup state after the sub-session's events were handled by
`transcribed_cb` at the sub-session's `session_base_s`. -/
def sessionDedup (rate : ℕ) (st : SupState) (o : SessionOutcome) : DedupState :=
  o.events.foldl (transcribed_cb (sessionBase rate st)) st.dedup

/-- The advanced cursor `min(total_frames, cursor_frame + feeder.frames_sent)`
(speech_to_text.py line 349). -/
def sessionCursor (total_frames : ℕ) (st : SupState) (o : SessionOutcome) : ℕ :=
  min total_frames (st.cursor_frame + o.frames_sent)

/-- The `restart_needed`/`restart_reason` pair after the two post-session
checks (speech_to_text.py lines 352-358): a feeder error forces a restart
(when not already decided), then an early stop (`cursor_frame <
total_frames` without clean feeder finish) forces one. -/
def restartDecision (total_frames : ℕ) (st : SupState) (o : SessionOutcome) :
    Bool × Option String :=
  let d1 : Bool × Option String :=
    if o.fed_error.isSome && !o.restart_needed0 then
      (true, some ("feeder_error:" ++ o.fed_error.getD ""))
    else (o.restart_needed0, o.restart_reason0)
  if !d1.1 && decide (sessionCursor total_frames st o < total_frames) &&
      !o.finished then
    (true, some "session_stopped_early")
  else d1

/-- One iteration of the supervisor's `while cursor_frame < total_frames`
loop body after the sub-session ended (speech_to_text.py lines 348-377):
process the session's events through `transcribed_cb` at
`session_base_s = cursor_frame / rate`, advance the cursor by
`frames_sent` (clamped by `total_frames`), decide whether a restart is
needed, and either fail with too many restarts, or roll the cursor back
by the overlap window, sleep the backoff and double it (capped at 20 s). -/
def stepSession (total_frames rate : ℕ) (st : SupState) (o : SessionOutcome) :
    (Option String × SupState) ⊕ SupState :=
  if (restartDecision total_frames st o).1 then
    if MAX_RESTARTS < st.restarts + 1 then
      Sum.inl ((restartDecision total_frames st o).2,
        { st with
            restarts := st.restarts + 1
            cursor_frame := sessionCursor total_frames st o
            dedup := sessionDedup rate st o })
    else
      Sum.inr { cursor_frame := sessionCursor total_frames st o - overlap_frames rate
                restarts := st.restarts + 1
                backoff_s := min 20 (2 * st.backoff_s)
                slept := st.slept ++ [st.backoff_s]
                dedup := sessionDedup rate st o }
  else
    Sum.inr { st with
                cursor_frame := sessionCursor total_frames st o
                dedup := sessionDedup rate st o }

/-- The supervisor state produced by one loop iteration (the fatal and
non-fatal cases agree on the recorded state). -/
def stepState (total_frames rate : ℕ) (st : SupState) (o : SessionOutcome) :
    SupState :=
  match stepSession total_frames rate st o with
  | Sum.inl p => p.2
  | Sum.inr st' => st'

/-- The supervisor loop of `transcribe_with_diarization_local`
(speech_to_text.py lines 212-383) driven by a trace of sub-session
outcomes: while `cursor_frame < total_frames`, consume the next outcome
through `stepSession`; stop with `ok transcription_results` when the
cursor reaches the end, with `tooManyRestarts` when the restart budget is
exceeded, or with `outOfTrace` when the trace is exhausted early. -/
def runLoop (total_frames rate : ℕ) : SupState → List SessionOutcome → RunResult
  | st, [] =>
    if st.cursor_frame < total_frames then .outOfTrace st
    else .ok st.dedup.transcription_results st
  | st, o :: rest =>
    if st.cursor_frame < total_frames then
      match stepSession total_frames rate st o with
      | Sum.inl p => .tooManyRestarts p.1 p.2
      | Sum.inr st' => runLoop total_frames rate st' rest
    else .ok st.dedup.transcription_results st

/-- The backoff value before the `n`-th restart's sleep: starting at 1 s
and doubling with cap 20 s gives `min 20 (2 ^ n)`. -/
def backoffSeq (n : ℕ) : ℚ := min 20 (2 ^ n)

/-- The backoff bookkeeping invariant of the supervisor state. -/
def backoffInv (st : SupState) : Prop :=
  st.slept = (List.range st.slept.length).map backoffSeq ∧
    st.backoff_s = backoffSeq st.slept.length

/-- A sub-session outcome for an injected hang: no events, no frames fed,
the watchdog set `restart_needed`/`restart_reason = "hang_timeout"`. -/
def hangOutcome : SessionOutcome :=
  { events := [], frames_sent := 0, finished := false, fed_error := none,
    restart_needed0 := true, restart_reason0 := some "hang_timeout" }

/-- A clean sub-session outcome feeding `n` frames to end-of-stream. -/
def cleanOutcome (n : ℕ) : SessionOutcome :=
  { events := [], frames_sent := n, finished := true, fed_error := none,
    restart_needed0 := false, restart_reason0 := none }

/-- The feeder's terminal state: the `frames_sent`, `finished` and
`error` fields of `_WavFeeder` after `run` returned. -/
structure FeederResult where
  frames_sent : ℕ
  finished : Bool
  error : Option String
deriving DecidableEq

/-- Whether the external `stop_event` is set during iteration `i`,
modelling a stop requested just before iteration `s`. -/
def isStopped (stopAt : Option ℕ) (i : ℕ) : Bool :=
  match stopAt with
  | some s => decide (s ≤ i)
  | none => false

/-- The loop of `_WavFeeder.run` (speech_to_text.py lines 85-113):
each iteration checks the stop event, reads up to `chunk` frames of the
`remaining` ones (an empty read sets `finished` and breaks), may hit an
I/O error (modelled as raised during iteration `errAt`, recorded in
`error` and stopping the loop without propagating), then accumulates
`frames_sent`. `fuel` bounds the number of iterations; `remaining + 1`
iterations always suffice when `chunk ≥ 1`. -/
def feederLoop (chunk : ℕ) (stopAt errAt : Option ℕ) :
    ℕ → ℕ → ℕ → ℕ → FeederResult
  | 0, _, _, sent => { frames_sent := sent, finished := false, error := none }
  | fuel + 1, remaining, iter, sent =>
    if isStopped stopAt iter then
      { frames_sent := sent, finished := false, error := none }
    else if remaining = 0 then
      { frames_sent := sent, finished := true, error := none }
    else if errAt = some iter then
      { frames_sent := sent, finished := false, error := some "io_error" }
    else
      feederLoop chunk stopAt errAt fuel (remaining - min chunk remaining)
        (iter + 1) (sent + min chunk remaining)

/-- Run `_WavFeeder.run` on the stream residue: fuel
`remaining + 1` suffices for termination by end-of-stream. -/
def feederRun (chunk : ℕ) (stopAt errAt : Option ℕ) (remaining : ℕ) :
    FeederResult :=
  feederLoop chunk stopAt errAt (remaining + 1) remaining 0 0

end SttLocal

namespace SttLocal

theorem pyInt_of_nonneg (q : ℚ) (h : 0 ≤ q) : pyInt q = ⌊q⌋ := by
  simp [pyInt, h]

/-- Unfolding equation for `transcribed_cb` on a present result. -/
theorem transcribed_cb_some (base : ℚ) (st : DedupState) (r : RecognitionResult) :
    transcribed_cb base st (some r) =
      if r.reason ≠ ResultReason.RecognizedSpeech then st
      else if pyStrip r.text = "" then st
      else if ((r.offset + r.duration : ℤ) : ℚ) / scale_100ns + base ≤
          st.accepted_last_end_s + DEDUP_EPS_S then st
      else
        { transcription_results := st.transcription_results ++
            [{ speaker_id := r.speaker_id
               text := pyStrip r.text
               offset := pyInt (((r.offset : ℚ) / scale_100ns + base) * scale_100ns)
               duration := pyInt ((((r.offset + r.duration : ℤ) : ℚ) / scale_100ns +
                   base - ((r.offset : ℚ) / scale_100ns + base)) * scale_100ns) }]
          accepted_last_end_s := max st.accepted_last_end_s
            (((r.offset + r.duration : ℤ) : ℚ) / scale_100ns + base) } := rfl

/-- C1: for every Final recognition event with reason `RecognizedSpeech` and
non-empty stripped text, `transcribed_cb` computes
`global_start = local_start + base_offset` and
`global_end = local_end + base_offset`; it drops the event (state unchanged)
when `global_end ≤ watermark + DEDUP_EPS_S` (default 0.08 s), and otherwise
appends a `TranscriptSegment` with the computed global start and duration
(stored in truncated 100 ns units) and sets the watermark to
`max watermark global_end`. -/
theorem C1_dedup_accept_or_drop (session_base_s : ℚ) (st : DedupState)
    (r : RecognitionResult)
    (hreason : r.reason = ResultReason.RecognizedSpeech)
    (htext : pyStrip r.text ≠ "") :
    (((r.offset + r.duration : ℤ) : ℚ) / scale_100ns + session_base_s ≤
        st.accepted_last_end_s + DEDUP_EPS_S →
      transcribed_cb session_base_s st (some r) = st) ∧
    (st.accepted_last_end_s + DEDUP_EPS_S <
        ((r.offset + r.duration : ℤ) : ℚ) / scale_100ns + session_base_s →
      transcribed_cb session_base_s st (some r) =
        { transcription_results := st.transcription_results ++
            [{ speaker_id := r.speaker_id
               text := pyStrip r.text
               offset := pyInt (((r.offset : ℚ) / scale_100ns + session_base_s) *
                 scale_100ns)
               duration := pyInt ((((r.offset + r.duration : ℤ) : ℚ) / scale_100ns +
                   session_base_s -
                 ((r.offset : ℚ) / scale_100ns + session_base_s)) * scale_100ns) }]
          accepted_last_end_s := max st.accepted_last_end_s
            (((r.offset + r.duration : ℤ) : ℚ) / scale_100ns + session_base_s) }) := by
  have hr : ¬ (r.reason ≠ ResultReason.RecognizedSpeech) := by
    simp [hreason]
  constructor
  · intro hdrop
    rw [transcribed_cb_some, if_neg hr, if_neg htext, if_pos hdrop]
  · intro haccept
    rw [transcribed_cb_some, if_neg hr, if_neg htext, if_neg (not_le.2 haccept)]

/-- Witness for C1: a concrete accepted event. -/
theorem C1_dedup_accept_or_drop_witness :
    transcribed_cb 0 initDedup
        (some { reason := ResultReason.RecognizedSpeech, text := " hi ",
                offset := 0, duration := 10000000, speaker_id := none }) =
      { transcription_results :=
          [{ speaker_id := none, text := "hi", offset := 0, duration := 10000000 }]
        accepted_last_end_s := 1 } := by
  have h := (C1_dedup_accept_or_drop 0 initDedup
      { reason := ResultReason.RecognizedSpeech, text := " hi ",
        offset := 0, duration := 10000000, speaker_id := none }
      rfl (by decide)).2 (by norm_num [initDedup, DEDUP_EPS_S, scale_100ns])
  rw [h]
  norm_num [initDedup, pyInt, scale_100ns]
  decide

/-- C9: a Final event whose result is absent, whose reason is not
`RecognizedSpeech`, or whose text strips to empty leaves the deduplicator
state (segments and watermark) unchanged; and processing any event preserves
the invariant that every stored segment has non-empty text. -/
theorem C9_reject_empty_and_nonspeech :
    (∀ base st, transcribed_cb base st none = st) ∧
    (∀ base st r, r.reason ≠ ResultReason.RecognizedSpeech →
      transcribed_cb base st (some r) = st) ∧
    (∀ base st r, pyStrip r.text = "" → transcribed_cb base st (some r) = st) ∧
    (∀ base st e, (∀ s ∈ st.transcription_results, s.text ≠ "") →
      ∀ s ∈ (transcribed_cb base st e).transcription_results, s.text ≠ "") := by
  refine ⟨fun base st => rfl,
    fun base st r hr => by rw [transcribed_cb_some, if_pos hr],
    fun base st r ht => ?_, fun base st e hinv s hs => ?_⟩
  · rw [transcribed_cb_some]
    by_cases hr : r.reason ≠ ResultReason.RecognizedSpeech
    · rw [if_pos hr]
    · rw [if_neg hr, if_pos ht]
  · cases e with
    | none => exact hinv s hs
    | some r =>
      rw [transcribed_cb_some] at hs
      by_cases hr : r.reason ≠ ResultReason.RecognizedSpeech
      · rw [if_pos hr] at hs
        exact hinv s hs
      · rw [if_neg hr] at hs
        by_cases ht : pyStrip r.text = ""
        · rw [if_pos ht] at hs
          exact hinv s hs
        · rw [if_neg ht] at hs
          split at hs
          · exact hinv s hs
          · simp only [List.mem_append, List.mem_singleton] at hs
            rcases hs with hs | hs
            · exact hinv s hs
            · subst hs
              exact ht

/-- Witness for C9: a concrete non-speech event leaves the state unchanged. -/
theorem C9_reject_empty_and_nonspeech_witness :
    transcribed_cb 0 initDedup
        (some { reason := ResultReason.NoMatch, text := "x",
                offset := 0, duration := 1, speaker_id := none }) = initDedup := by
  exact C9_reject_empty_and_nonspeech.2.1 0 initDedup
    { reason := ResultReason.NoMatch, text := "x",
      offset := 0, duration := 1, speaker_id := none } (by decide)

/-- The handler `transcribed_cb` never decreases the watermark (single step). -/
theorem transcribed_cb_watermark_mono (base : ℚ) (st : DedupState)
    (e : Option RecognitionResult) :
    st.accepted_last_end_s ≤ (transcribed_cb base st e).accepted_last_end_s := by
  cases e with
  | none => exact le_refl _
  | some r =>
    rw [transcribed_cb_some]
    split
    · exact le_refl _
    · split
      · exact le_refl _
      · split
        · exact le_refl _
        · exact le_max_left _ _

/-- Folding a session's events never decreases the watermark. -/
theorem foldl_watermark_mono (base : ℚ) (events : List (Option RecognitionResult)) :
    ∀ d : DedupState, d.accepted_last_end_s ≤
      (events.foldl (transcribed_cb base) d).accepted_last_end_s := by
  induction events with
  | nil => intro d; exact le_refl _
  | cons e rest ih =>
    intro d
    exact le_trans (transcribed_cb_watermark_mono base d e) (ih _)

/-- The dedup state recorded by one supervisor iteration is the fold of the
session's events at the session's base offset. -/
theorem stepState_dedup (total rate : ℕ) (st : SupState) (o : SessionOutcome) :
    (stepState total rate st o).dedup = sessionDedup rate st o := by
  unfold stepState
  cases h : stepSession total rate st o with
  | inl p =>
    unfold stepSession at h
    split at h
    · split at h
      · cases h
        rfl
      · cases h
    · cases h
  | inr st' =>
    unfold stepSession at h
    split at h
    · split at h
      · cases h
      · cases h
        rfl
    · cases h
      rfl

/-- Per-iteration bookkeeping of `restarts`, `slept` and `backoff_s`: either
no restart was decided (all unchanged), a non-fatal restart happened (sleep
recorded, backoff doubled with cap, counter incremented), or the fatal path
was taken (counter incremented, no sleep). -/
theorem stepState_restart_cases (total rate : ℕ) (st : SupState)
    (o : SessionOutcome) :
    (stepState total rate st o).restarts = st.restarts ∧
      (stepState total rate st o).slept = st.slept ∧
      (stepState total rate st o).backoff_s = st.backoff_s ∨
    (stepState total rate st o).restarts = st.restarts + 1 ∧
      (stepState total rate st o).slept = st.slept ++ [st.backoff_s] ∧
      (stepState total rate st o).backoff_s = min 20 (2 * st.backoff_s) ∨
    (stepState total rate st o).restarts = st.restarts + 1 ∧
      (stepState total rate st o).slept = st.slept ∧
      (stepState total rate st o).backoff_s = st.backoff_s := by
  unfold stepState
  cases h : stepSession total rate st o with
  | inl p =>
    unfold stepSession at h
    split at h
    · split at h
      · cases h
        exact Or.inr (Or.inr ⟨rfl, rfl, rfl⟩)
      · cases h
    · cases h
  | inr st' =>
    unfold stepSession at h
    split at h
    · split at h
      · cases h
      · cases h
        exact Or.inr (Or.inl ⟨rfl, rfl, rfl⟩)
    · cases h
      exact Or.inl ⟨rfl, rfl, rfl⟩

/-- The fatal branch of `stepSession` is taken exactly when a restart was
decided and the incremented counter exceeds `MAX_RESTARTS`; it reports a
state whose counter is `st.restarts + 1`. -/
theorem stepSession_fatal_restarts (total rate : ℕ) (st : SupState)
    (o : SessionOutcome) (reason : Option String) (stf : SupState)
    (h : stepSession total rate st o = Sum.inl (reason, stf)) :
    stf.restarts = st.restarts + 1 ∧ MAX_RESTARTS < st.restarts + 1 := by
  simp only [stepSession] at h
  split at h
  · split at h
    · rename_i hlt
      refine ⟨?_, hlt⟩
      cases h
      rfl
    · cases h
  · cases h

/-- The non-fatal branches of `stepSession` keep `restarts ≤ MAX_RESTARTS`
when it held before. -/
theorem stepSession_inr_restarts (total rate : ℕ) (st : SupState)
    (o : SessionOutcome) (st' : SupState)
    (hst : st.restarts ≤ MAX_RESTARTS)
    (h : stepSession total rate st o = Sum.inr st') :
    st'.restarts ≤ MAX_RESTARTS := by
  simp only [stepSession] at h
  split at h
  · split at h
    · cases h
    · rename_i hle
      cases h
      exact Nat.le_of_not_lt hle
  · cases h
    exact hst

/-- Generic invariant preservation along the supervisor loop. -/
theorem runLoop_inv (P : SupState → Prop) (total rate : ℕ)
    (hstep : ∀ st o, P st → P (stepState total rate st o)) :
    ∀ (trace : List SessionOutcome) (st : SupState), P st →
      P (runLoop total rate st trace).state := by
  intro trace
  induction trace with
  | nil =>
    intro st hst
    unfold runLoop
    split
    · exact hst
    · exact hst
  | cons o rest ih =>
    intro st hst
    unfold runLoop
    split
    · have h := hstep st o hst
      unfold stepState at h
      cases hs : stepSession total rate st o with
      | inl p =>
        rw [hs] at h
        exact h
      | inr st' =>
        rw [hs] at h
        exact ih st' h
    · exact hst

/-- From a state within the restart budget, the loop yields a fatal result
only with `restarts = MAX_RESTARTS + 1`, and a non-fatal result only within
the budget. -/
theorem runLoop_restarts (total rate : ℕ) :
    ∀ (trace : List SessionOutcome) (st : SupState),
      st.restarts ≤ MAX_RESTARTS →
      (∀ reason stf, runLoop total rate st trace = .tooManyRestarts reason stf →
        stf.restarts = MAX_RESTARTS + 1) ∧
      (∀ segs stf, runLoop total rate st trace = .ok segs stf →
        stf.restarts ≤ MAX_RESTARTS) ∧
      (∀ stf, runLoop total rate st trace = .outOfTrace stf →
        stf.restarts ≤ MAX_RESTARTS) := by
  intro trace
  induction trace with
  | nil =>
    intro st hst
    refine ⟨fun reason stf h => ?_, fun segs stf h => ?_, fun stf h => ?_⟩ <;>
      unfold runLoop at h <;> split at h <;> cases h <;> exact hst
  | cons o rest ih =>
    intro st hst
    refine ⟨fun reason stf h => ?_, fun segs stf h => ?_, fun stf h => ?_⟩ <;>
        unfold runLoop at h <;> split at h
    · cases hs : stepSession total rate st o with
      | inl p =>
        rw [hs] at h
        cases h
        have := stepSession_fatal_restarts total rate st o p.1 p.2 (by
          rw [hs])
        omega
      | inr st' =>
        rw [hs] at h
        exact (ih st' (stepSession_inr_restarts total rate st o st' hst hs)).1
          reason stf h
    · cases h
    · cases hs : stepSession total rate st o with
      | inl p =>
        rw [hs] at h
        cases h
      | inr st' =>
        rw [hs] at h
        exact (ih st' (stepSession_inr_restarts total rate st o st' hst hs)).2.1
          segs stf h
    · cases h
      exact hst
    · cases hs : stepSession total rate st o with
      | inl p =>
        rw [hs] at h
        cases h
      | inr st' =>
        rw [hs] at h
        exact (ih st' (stepSession_inr_restarts total rate st o st' hst hs)).2.2
          stf h
    · cases h

/-- C3: the acceptance watermark is monotonically non-decreasing: no handled
event decreases it (`transcribed_cb` step), and no run of the supervisor
loop — including restarts and new sub-sessions — decreases it. -/
theorem C3_watermark_never_decreases :
    (∀ base st e,
      st.accepted_last_end_s ≤ (transcribed_cb base st e).accepted_last_end_s) ∧
    (∀ total rate (st : SupState) (trace : List SessionOutcome),
      st.dedup.accepted_last_end_s ≤
        (runLoop total rate st trace).state.dedup.accepted_last_end_s) := by
  refine ⟨transcribed_cb_watermark_mono, ?_⟩
  intro total rate st trace
  refine runLoop_inv
    (fun s => st.dedup.accepted_last_end_s ≤ s.dedup.accepted_last_end_s)
    total rate (fun s o hs => le_trans hs ?_) trace st (le_refl _)
  rw [stepState_dedup]
  exact foldl_watermark_mono (sessionBase rate s) o.events s.dedup

/-- C10: for an audio stream with zero total frames, the supervisor loop is
never entered: the job returns an empty segment list with the initial state
(no sub-session consumed, no restart, no fatal error), whatever outcomes the
environment could have provided. -/
theorem C10_zero_frames_empty_result (rate : ℕ) (trace : List SessionOutcome) :
    runLoop 0 rate initState trace = .ok [] initState := by
  cases trace with
  | nil => rfl
  | cons o rest => rfl

/-- Doubling with cap: `min 20 (2 * backoffSeq n) = backoffSeq (n + 1)`. -/
theorem backoffSeq_succ (n : ℕ) :
    min 20 (2 * backoffSeq n) = backoffSeq (n + 1) := by
  unfold backoffSeq
  rcases le_total ((2 : ℚ) ^ n) 20 with h | h
  · rw [min_eq_right h, show (2 : ℚ) * 2 ^ n = 2 ^ (n + 1) by ring]
  · rw [min_eq_left h]
    have h2 : (0 : ℚ) ≤ 2 ^ n := pow_nonneg (by norm_num) n
    have h1 : (20 : ℚ) ≤ 2 ^ (n + 1) := by
      rw [show (2 : ℚ) ^ (n + 1) = 2 * 2 ^ n by ring]
      nlinarith
    rw [min_eq_left h1]
    norm_num

/-- The sequence `backoffSeq` is monotone. -/
theorem backoffSeq_mono {i j : ℕ} (h : i ≤ j) : backoffSeq i ≤ backoffSeq j := by
  unfold backoffSeq
  exact min_le_min (le_refl _) (pow_le_pow_right₀ one_le_two h)

/-- The invariant `backoffInv` is preserved by every supervisor iteration. -/
theorem stepState_backoffInv (total rate : ℕ) (st : SupState)
    (o : SessionOutcome) (h : backoffInv st) :
    backoffInv (stepState total rate st o) := by
  rcases stepState_restart_cases total rate st o with
    ⟨_, h2, h3⟩ | ⟨_, h2, h3⟩ | ⟨_, h2, h3⟩
  · exact ⟨by rw [h2]; exact h.1, by rw [h3, h2]; exact h.2⟩
  · have hlen : (st.slept ++ [st.backoff_s]).length = st.slept.length + 1 := by
      simp
    constructor
    · rw [h2, hlen, List.range_succ, List.map_append]
      congr 1
      · exact h.1
      · simp [h.2]
    · rw [h3, h2, hlen, h.2]
      exact backoffSeq_succ _
  · exact ⟨by rw [h2]; exact h.1, by rw [h3, h2]; exact h.2⟩

/-- C7: along any run of one job from the initial state, the recorded
backoff sleeps are exactly `backoffSeq 0, backoffSeq 1, …` (1, 2, 4, 8, 16,
then capped at 20), hence monotonically non-decreasing and bounded by 20 s,
and the live backoff value equals the next element of that sequence. -/
theorem C7_backoff_monotone_capped (total rate : ℕ)
    (trace : List SessionOutcome) :
    ((runLoop total rate initState trace).state.slept =
      (List.range (runLoop total rate initState trace).state.slept.length).map
        backoffSeq) ∧
    ((runLoop total rate initState trace).state.backoff_s =
      backoffSeq (runLoop total rate initState trace).state.slept.length) ∧
    ((runLoop total rate initState trace).state.slept.Pairwise (· ≤ ·)) ∧
    (∀ x ∈ (runLoop total rate initState trace).state.slept, x ≤ 20) ∧
    (List.range 7).map backoffSeq = [1, 2, 4, 8, 16, 20, 20] := by
  have hinv : backoffInv (runLoop total rate initState trace).state := by
    refine runLoop_inv backoffInv total rate
      (fun s o hs => stepState_backoffInv total rate s o hs) trace initState ?_
    exact ⟨rfl, by decide⟩
  refine ⟨hinv.1, hinv.2, ?_, ?_, by decide⟩
  · rw [hinv.1]
    refine List.pairwise_map.2 ?_
    exact (List.pairwise_lt_range _).imp (fun h => backoffSeq_mono (le_of_lt h))
  · intro x hx
    rw [hinv.1] at hx
    rcases List.mem_map.1 hx with ⟨n, _, rfl⟩
    exact min_le_left _ _

/-- Counterexample to C4 as stated: with `max_restarts = 8`, eight
consecutive sub-session failures (injected hangs) followed by a clean
sub-session do NOT fail the job: the run returns `ok` with
`restarts = 8`, so the fatal error only arises on a ninth failure. -/
theorem C4_counterexample :
    runLoop 100 1 initState
        (List.replicate 8 hangOutcome ++ [cleanOutcome 100]) =
      .ok [] { cursor_frame := 100, restarts := 8, backoff_s := 20,
               slept := [1, 2, 4, 8, 16, 20, 20, 20], dedup := initDedup } := by
  norm_num [runLoop, stepSession, restartDecision, sessionCursor, sessionDedup,
    sessionBase, initState, initDedup, hangOutcome, cleanOutcome, overlap_frames,
    pyInt, OVERLAP_S, MAX_RESTARTS, min_def, List.replicate, stepState]

/-- C4 (amended): the job fails fatally with the too-many-restarts error
exactly when `restart_count` exceeds `max_restarts`, i.e. on the ninth
consecutive failure (`restarts = 9`); a normal return never has
`restarts > max_restarts` (no silent partial result); and nine consecutive
injected hangs do fail fatally with reason `hang_timeout`. -/
theorem C4_restart_budget :
    (∀ total rate (trace : List SessionOutcome) reason stf,
      runLoop total rate initState trace = .tooManyRestarts reason stf →
      stf.restarts = MAX_RESTARTS + 1) ∧
    (∀ total rate (trace : List SessionOutcome) segs stf,
      runLoop total rate initState trace = .ok segs stf →
      stf.restarts ≤ MAX_RESTARTS) ∧
    runLoop 100 1 initState (List.replicate 9 hangOutcome) =
      .tooManyRestarts (some "hang_timeout")
        { cursor_frame := 0, restarts := 9, backoff_s := 20,
          slept := [1, 2, 4, 8, 16, 20, 20, 20], dedup := initDedup } := by
  refine ⟨?_, ?_, by
    norm_num [runLoop, stepSession, restartDecision, sessionCursor, sessionDedup,
      sessionBase, initState, initDedup, hangOutcome, cleanOutcome, overlap_frames,
      pyInt, OVERLAP_S, MAX_RESTARTS, min_def, List.replicate, stepState]⟩
  · intro total rate trace reason stf h
    exact (runLoop_restarts total rate trace initState (by decide)).1 reason stf h
  · intro total rate trace segs stf h
    exact (runLoop_restarts total rate trace initState (by decide)).2.1 segs stf h

/-- Witness for C4: the nine-hang run instantiates the fatal clause. -/
theorem C4_restart_budget_witness :
    ({ cursor_frame := 0, restarts := 9, backoff_s := 20,
       slept := [1, 2, 4, 8, 16, 20, 20, 20], dedup := initDedup } :
        SupState).restarts = MAX_RESTARTS + 1 :=
  C4_restart_budget.1 100 1 (List.replicate 9 hangOutcome)
    (some "hang_timeout") _ C4_restart_budget.2.2

/-- Truncated ℕ subtraction cast to ℤ is the 0-clamped difference. -/
theorem natSub_cast_max (a b : ℕ) :
    ((a - b : ℕ) : ℤ) = max 0 ((a : ℤ) - b) := by
  rcases le_total b a with h | h
  · rw [Nat.cast_sub h, max_eq_right (by omega : (0 : ℤ) ≤ (a : ℤ) - b)]
  · rw [Nat.sub_eq_zero_of_le h, max_eq_left (by omega : ((a : ℤ) - b) ≤ 0)]
    rfl

/-- C6: after a sub-session, the cursor advances by exactly the frames the
feeder actually sent (the feeder cannot send more frames than remain, so the
`min total_frames` clamp is inert), and when a restart is decided —
observable as the incremented restart counter — the cursor is then rolled
back by the overlap window `int(OVERLAP_S * rate)` clamped below at 0. The
fatal branch records the advanced, un-rolled-back cursor. -/
theorem C6_cursor_advance_and_rollback (total rate : ℕ) (st : SupState)
    (o : SessionOutcome) (hfs : st.cursor_frame + o.frames_sent ≤ total) :
    (∀ st', stepSession total rate st o = Sum.inr st' →
      (st'.restarts = st.restarts →
        st'.cursor_frame = st.cursor_frame + o.frames_sent) ∧
      (st'.restarts = st.restarts + 1 →
        (st'.cursor_frame : ℤ) =
          max 0 ((st.cursor_frame : ℤ) + (o.frames_sent : ℤ) -
            (overlap_frames rate : ℤ)))) ∧
    (∀ reason stf, stepSession total rate st o = Sum.inl (reason, stf) →
      stf.cursor_frame = st.cursor_frame + o.frames_sent) := by
  have hcur : sessionCursor total st o = st.cursor_frame + o.frames_sent :=
    min_eq_right hfs
  constructor
  · intro st' h
    unfold stepSession at h
    split at h
    · split at h
      · cases h
      · cases h
        constructor
        · intro hr
          exact absurd (show st.restarts + 1 = st.restarts from hr) (by omega)
        · intro _
          show ((sessionCursor total st o - overlap_frames rate : ℕ) : ℤ) = _
          rw [hcur, natSub_cast_max]
          push_cast
          rfl
    · cases h
      constructor
      · intro _
        exact hcur
      · intro hr
        exact absurd (show st.restarts = st.restarts + 1 from hr) (by omega)
  · intro reason stf h
    unfold stepSession at h
    split at h
    · split at h
      · cases h
        exact hcur
      · cases h
    · cases h

/-- Witness for C6: a clean full-length sub-session advances the cursor by
exactly the fed frames. -/
theorem C6_cursor_advance_and_rollback_witness :
    ({ cursor_frame := 10, restarts := 0, backoff_s := 1, slept := [],
       dedup := initDedup } : SupState).cursor_frame =
      initState.cursor_frame + (cleanOutcome 10).frames_sent :=
  ((C6_cursor_advance_and_rollback 10 2 initState (cleanOutcome 10)
      (by decide)).1
    { cursor_frame := 10, restarts := 0, backoff_s := 1, slept := [],
      dedup := initDedup } (by decide)).1 rfl

/-- Counterexample to C5 as stated: the code matches the substring
`"client buffer exceeded"`, not `"buffer exceeded"`: a cancellation whose
reason is exactly `"buffer exceeded"` is NOT classified as
`client_buffer_exceeded` and forces no restart — it falls to the
catch-all branch keeping the raw reason text. -/
theorem C5_counterexample :
    canceled_cb (some "buffer exceeded") =
      { restart_needed := false, restart_reason := some "buffer exceeded" } ∧
    canceled_cb (some "buffer exceeded") ≠
      { restart_needed := true,
        restart_reason := some "client_buffer_exceeded" } := by
  decide

/-- C5 (amended): the lowercased reason string is classified by substring:
containing `"client buffer exceeded"` sets reason `client_buffer_exceeded`
and forces a restart; otherwise containing `"websocket"`, `"connection"` or
`"timeout"` sets `connection_or_timeout` and forces a restart; otherwise the
restart reason is the raw reason text (`"canceled"` when absent or empty)
and no restart is forced by this path. -/
theorem C5_cancellation_classification (d : Option String) :
    (strContains (pyLower (d.getD "")) "client buffer exceeded" = true →
      canceled_cb d =
        { restart_needed := true
          restart_reason := some "client_buffer_exceeded" }) ∧
    (strContains (pyLower (d.getD "")) "client buffer exceeded" = false →
      (strContains (pyLower (d.getD "")) "websocket" ||
        strContains (pyLower (d.getD "")) "connection" ||
        strContains (pyLower (d.getD "")) "timeout") = true →
      canceled_cb d =
        { restart_needed := true
          restart_reason := some "connection_or_timeout" }) ∧
    (strContains (pyLower (d.getD "")) "client buffer exceeded" = false →
      (strContains (pyLower (d.getD "")) "websocket" ||
        strContains (pyLower (d.getD "")) "connection" ||
        strContains (pyLower (d.getD "")) "timeout") = false →
      canceled_cb d =
        { restart_needed := false
          restart_reason := some (if d.getD "" = "" then "canceled"
            else d.getD "") }) := by
  refine ⟨fun h1 => ?_, fun h1 h2 => ?_, fun h1 h2 => ?_⟩ <;>
    simp only [canceled_cb]
  · rw [if_pos h1]
  · rw [if_neg (by simp [h1]), if_pos h2]
  · rw [if_neg (by simp [h1]), if_neg (by simp [h2])]

/-- Witness for C5: a websocket-flavoured reason forces a restart with
reason `connection_or_timeout` (case-insensitively). -/
theorem C5_cancellation_classification_witness :
    canceled_cb (some "WebSocket error") =
      { restart_needed := true,
        restart_reason := some "connection_or_timeout" } :=
  (C5_cancellation_classification (some "WebSocket error")).2.1
    (by decide) (by decide)

/-- Counterexample to C2 as stated: the dedup rule only gates on the global
end time, so an accepted segment's global start may precede an earlier
accepted segment's start, and two accepted segments may overlap by far more
than epsilon. Here the first Final event covers 9 s–10 s and the second
0 s–10.1 s: both are accepted (10.1 > 10 + 0.08), the stored start times
are the decreasing `[90000000, 0]` (100 ns units), and the two segments
overlap for a full second (10000000 ≫ epsilon = 800000). -/
theorem C2_counterexample :
    ((processEvents
        [((0 : ℚ), some { reason := ResultReason.RecognizedSpeech, text := "a",
                          offset := 90000000, duration := 10000000,
                          speaker_id := none }),
         ((0 : ℚ), some { reason := ResultReason.RecognizedSpeech, text := "b",
                          offset := 0, duration := 101000000,
                          speaker_id := none })]
        initDedup).transcription_results.map (fun s => s.offset) =
      [90000000, 0]) ∧
    ¬ ((processEvents
        [((0 : ℚ), some { reason := ResultReason.RecognizedSpeech, text := "a",
                          offset := 90000000, duration := 10000000,
                          speaker_id := none }),
         ((0 : ℚ), some { reason := ResultReason.RecognizedSpeech, text := "b",
                          offset := 0, duration := 101000000,
                          speaker_id := none })]
        initDedup).transcription_results.map (fun s => s.offset)).Pairwise
      (· ≤ ·) ∧
    ¬ (processEvents
        [((0 : ℚ), some { reason := ResultReason.RecognizedSpeech, text := "a",
                          offset := 90000000, duration := 10000000,
                          speaker_id := none }),
         ((0 : ℚ), some { reason := ResultReason.RecognizedSpeech, text := "b",
                          offset := 0, duration := 101000000,
                          speaker_id := none })]
        initDedup).transcription_results.Pairwise
      (fun a b => min (a.offset + a.duration) (b.offset + b.duration) -
        max a.offset b.offset ≤ 800000) := by
  have h : processEvents
      [((0 : ℚ), some { reason := ResultReason.RecognizedSpeech, text := "a",
                        offset := 90000000, duration := 10000000,
                        speaker_id := none }),
       ((0 : ℚ), some { reason := ResultReason.RecognizedSpeech, text := "b",
                        offset := 0, duration := 101000000,
                        speaker_id := none })]
      initDedup =
      { transcription_results :=
          [{ speaker_id := none, text := "a", offset := 90000000,
             duration := 10000000 },
           { speaker_id := none, text := "b", offset := 0,
             duration := 101000000 }]
        accepted_last_end_s := 101 / 10 } := by
    norm_num +decide [processEvents, transcribed_cb, pyStrip, initDedup,
      DEDUP_EPS_S, scale_100ns, pyInt, List.dropWhile]
  rw [h]
  refine ⟨rfl, ?_, ?_⟩ <;> intro hp
  · have := List.rel_of_pairwise_cons hp (List.mem_singleton.2 rfl)
    norm_num at this
  · have := List.rel_of_pairwise_cons hp (List.mem_singleton.2 rfl)
    norm_num at this

/-- Bounds for the truncated stored end time of an accepted segment:
`pyInt (s*scale) + pyInt ((e-s)*scale)` lies in `(e*scale - 2, e*scale]`
when `0 ≤ s ≤ e`. -/
theorem storedEnd_bounds (s e : ℚ) (hs : 0 ≤ s) (hse : s ≤ e) :
    ((pyInt (s * scale_100ns) + pyInt ((e - s) * scale_100ns) : ℤ) : ℚ) ≤
        e * scale_100ns ∧
      e * scale_100ns - 2 <
        ((pyInt (s * scale_100ns) + pyInt ((e - s) * scale_100ns) : ℤ) : ℚ) := by
  have hS : (0 : ℚ) < scale_100ns := by norm_num [scale_100ns]
  have h1 : (0 : ℚ) ≤ s * scale_100ns := mul_nonneg hs (le_of_lt hS)
  have h2 : (0 : ℚ) ≤ (e - s) * scale_100ns :=
    mul_nonneg (by linarith) (le_of_lt hS)
  rw [pyInt_of_nonneg _ h1, pyInt_of_nonneg _ h2]
  push_cast
  have f1 : (⌊s * scale_100ns⌋ : ℚ) ≤ s * scale_100ns := Int.floor_le _
  have f2 : (⌊(e - s) * scale_100ns⌋ : ℚ) ≤ (e - s) * scale_100ns :=
    Int.floor_le _
  have g1 : s * scale_100ns - 1 < (⌊s * scale_100ns⌋ : ℚ) :=
    Int.sub_one_lt_floor _
  have g2 : (e - s) * scale_100ns - 1 < (⌊(e - s) * scale_100ns⌋ : ℚ) :=
    Int.sub_one_lt_floor _
  constructor
  · nlinarith
  · nlinarith

/-- Unfolding `segEnds` over a one-element extension. -/
theorem segEnds_append (l : List TranscriptSegment) (t : TranscriptSegment) :
    segEnds (l ++ [t]) = segEnds l ++ [t.offset + t.duration] := by
  simp [segEnds]

/-- Processing one event preserves the dedup invariant (well-formed event:
non-negative base offset, result offset and duration). -/
theorem transcribed_cb_dedupInv (base : ℚ) (st : DedupState)
    (e : Option RecognitionResult) (hbase : 0 ≤ base)
    (he : ∀ r, e = some r → 0 ≤ r.offset ∧ 0 ≤ r.duration)
    (h : dedupInv st) : dedupInv (transcribed_cb base st e) := by
  cases e with
  | none => exact h
  | some r =>
    rw [transcribed_cb_some]
    split
    · exact h
    · split
      · exact h
      · split
        · exact h
        · rename_i hr ht hacc
          obtain ⟨hoff, hdur⟩ := he r rfl
          have hS : (0 : ℚ) < scale_100ns := by norm_num [scale_100ns]
          rw [not_le] at hacc
          set ss : ℚ := (r.offset : ℚ) / scale_100ns + base with hss_def
          set se : ℚ := ((r.offset + r.duration : ℤ) : ℚ) / scale_100ns + base
            with hse_def
          have hss : 0 ≤ ss := by
            have h0 : (0 : ℚ) ≤ (r.offset : ℚ) / scale_100ns :=
              div_nonneg (by exact_mod_cast hoff) (le_of_lt hS)
            rw [hss_def]
            linarith
          have hsse : ss ≤ se := by
            rw [hss_def, hse_def]
            have hnum : (r.offset : ℚ) ≤ ((r.offset + r.duration : ℤ) : ℚ) := by
              push_cast
              have hd : (0 : ℚ) ≤ (r.duration : ℚ) := by exact_mod_cast hdur
              linarith
            have hdiv := (div_le_div_iff_of_pos_right hS).2 hnum
            linarith
          obtain ⟨hzle, hzgt⟩ := storedEnd_bounds ss se hss hsse
          have hepsS : DEDUP_EPS_S * scale_100ns = 800000 := by
            norm_num [DEDUP_EPS_S, scale_100ns]
          have hsegap : st.accepted_last_end_s * scale_100ns + 800000 <
              se * scale_100ns := by
            have := mul_lt_mul_of_pos_right hacc hS
            rw [add_mul, hepsS] at this
            linarith
          refine ⟨?_, ?_⟩
          · show (segEnds (st.transcription_results ++ [_])).Pairwise (· < ·)
            rw [segEnds_append, List.pairwise_append]
            refine ⟨h.1, List.pairwise_singleton _ _, ?_⟩
            intro a ha b hb
            rw [List.mem_singleton] at hb
            subst hb
            have hax : (a : ℚ) ≤ st.accepted_last_end_s * scale_100ns :=
              h.2 a ha
            have : (a : ℚ) <
                ((pyInt (ss * scale_100ns) +
                  pyInt ((se - ss) * scale_100ns) : ℤ) : ℚ) := by
              linarith
            exact_mod_cast this
          · intro x hx
            rw [segEnds_append, List.mem_append, List.mem_singleton] at hx
            show (x : ℚ) ≤ max st.accepted_last_end_s se * scale_100ns
            rcases hx with hx | rfl
            · have hle := h.2 x hx
              have := mul_le_mul_of_nonneg_right
                (le_max_left st.accepted_last_end_s se) (le_of_lt hS)
              linarith
            · have := mul_le_mul_of_nonneg_right
                (le_max_right st.accepted_last_end_s se) (le_of_lt hS)
              push_cast
              push_cast at hzle
              linarith

/-- Processing a list of well-formed events preserves the dedup invariant. -/
theorem processEvents_dedupInv (pairs : List (ℚ × Option RecognitionResult))
    (h : ∀ p ∈ pairs, eventOk p) :
    ∀ st, dedupInv st → dedupInv (processEvents pairs st) := by
  induction pairs with
  | nil => intro st hst; exact hst
  | cons p rest ih =>
    intro st hst
    have hp := h p (List.mem_cons_self p rest)
    exact ih (fun q hq => h q (List.mem_cons_of_mem p hq)) _
      (transcribed_cb_dedupInv p.1 st p.2 hp.1 hp.2 hst)

/-- C2 (amended): for every sequence of Final events processed in arrival
order during one job (non-negative base offsets, result offsets and
durations), the accepted segments' stored global end times
(`offset + duration`) are strictly increasing in append order — the
acceptance rule bounds only the end times, so start times need not be
non-decreasing and accepted segments can overlap by more than epsilon
(see the counterexample). -/
theorem C2_accepted_ends_strictly_increasing
    (pairs : List (ℚ × Option RecognitionResult))
    (h : ∀ p ∈ pairs, eventOk p) :
    (segEnds (processEvents pairs initDedup).transcription_results).Pairwise
      (· < ·) :=
  (processEvents_dedupInv pairs h initDedup
    ⟨List.Pairwise.nil, by simp [segEnds, initDedup]⟩).1

/-- Witness for C2 (amended): two accepted events yield strictly increasing
stored end times. -/
theorem C2_accepted_ends_strictly_increasing_witness :
    (segEnds (processEvents
        [((0 : ℚ), some { reason := ResultReason.RecognizedSpeech, text := "a",
                          offset := 0, duration := 10000000,
                          speaker_id := none }),
         ((0 : ℚ), some { reason := ResultReason.RecognizedSpeech, text := "b",
                          offset := 50000000, duration := 10000000,
                          speaker_id := none })]
        initDedup).transcription_results).Pairwise (· < ·) := by
  apply C2_accepted_ends_strictly_increasing
  intro p hp
  rcases List.mem_cons.1 hp with rfl | hp
  · refine ⟨le_refl 0, ?_⟩
    rintro r hr
    cases hr
    exact ⟨by norm_num, by norm_num⟩
  · rcases List.mem_cons.1 hp with rfl | hp
    · refine ⟨le_refl 0, ?_⟩
      rintro r hr
      cases hr
      exact ⟨by norm_num, by norm_num⟩
    · cases hp

/-- A `finished` feeder run recorded no error and sent every remaining
frame: `finished` is only set by the clean end-of-stream branch. -/
theorem feederLoop_finished (chunk : ℕ) (stopAt errAt : Option ℕ) :
    ∀ fuel remaining iter sent,
      (feederLoop chunk stopAt errAt fuel remaining iter sent).finished =
        true →
      (feederLoop chunk stopAt errAt fuel remaining iter sent).error = none ∧
      (feederLoop chunk stopAt errAt fuel remaining iter sent).frames_sent =
        sent + remaining := by
  intro fuel
  induction fuel with
  | zero =>
    intro remaining iter sent h
    simp [feederLoop] at h
  | succ fuel ih =>
    intro remaining iter sent h
    simp only [feederLoop] at h ⊢
    by_cases h1 : isStopped stopAt iter = true
    · rw [if_pos h1] at h ⊢
      simp at h
    · rw [if_neg h1] at h ⊢
      by_cases h2 : remaining = 0
      · rw [if_pos h2] at h ⊢
        subst h2
        exact ⟨rfl, by simp⟩
      · rw [if_neg h2] at h ⊢
        by_cases h3 : errAt = some iter
        · rw [if_pos h3] at h ⊢
          simp at h
        · rw [if_neg h3] at h ⊢
          obtain ⟨e, f⟩ := ih _ _ _ h
          refine ⟨e, ?_⟩
          rw [f]
          have hmin : min chunk remaining ≤ remaining := Nat.min_le_right _ _
          omega

/-- A feeder run with no stop request and no I/O error finishes cleanly,
having sent every remaining frame. -/
theorem feederLoop_clean (chunk : ℕ) (hchunk : 0 < chunk) :
    ∀ fuel remaining iter sent, remaining < fuel →
      feederLoop chunk none none fuel remaining iter sent =
        { frames_sent := sent + remaining, finished := true, error := none } := by
  intro fuel
  induction fuel with
  | zero =>
    intro remaining iter sent h
    omega
  | succ fuel ih =>
    intro remaining iter sent h
    simp only [feederLoop]
    rw [if_neg (by simp [isStopped] : ¬ isStopped none iter = true)]
    by_cases h2 : remaining = 0
    · rw [if_pos h2]
      subst h2
      simp
    · rw [if_neg h2, if_neg (by simp : ¬ (none : Option ℕ) = some iter)]
      have hmin : min chunk remaining ≤ remaining := Nat.min_le_right _ _
      have hmin1 : 1 ≤ min chunk remaining := by
        rcases Nat.le_total chunk remaining with hc | hc
        · rw [Nat.min_eq_left hc]; omega
        · rw [Nat.min_eq_right hc]; omega
      rw [ih (remaining - min chunk remaining) (iter + 1)
        (sent + min chunk remaining) (by omega)]
      have harith : sent + min chunk remaining +
          (remaining - min chunk remaining) = sent + remaining := by omega
      rw [harith]

/-- A stop request that takes effect before end-of-stream leaves
`finished = false` and no error: the feeder sent exactly the chunks of the
iterations before the stop. -/
theorem feederLoop_stopped (chunk : ℕ) (hchunk : 0 < chunk) (s : ℕ) :
    ∀ fuel remaining iter sent, remaining < fuel → iter ≤ s →
      chunk * (s - iter) < remaining →
      feederLoop chunk (some s) none fuel remaining iter sent =
        { frames_sent := sent + chunk * (s - iter), finished := false,
          error := none } := by
  intro fuel
  induction fuel with
  | zero =>
    intro remaining iter sent h _ _
    omega
  | succ fuel ih =>
    intro remaining iter sent hf hs hrem
    simp only [feederLoop]
    rcases Nat.lt_or_ge iter s with hlt | hge
    · rw [if_neg (by simp [isStopped] ; omega : ¬ isStopped (some s) iter = true)]
      have hchr : chunk ≤ chunk * (s - iter) := by
        have h1 : 1 ≤ s - iter := by omega
        calc chunk = chunk * 1 := by omega
          _ ≤ chunk * (s - iter) := Nat.mul_le_mul_left chunk h1
      rw [if_neg (by omega : ¬ remaining = 0),
        if_neg (by simp : ¬ (none : Option ℕ) = some iter)]
      have hminc : min chunk remaining = chunk :=
        Nat.min_eq_left (by omega)
      rw [hminc]
      have hmul : chunk * (s - iter) = chunk * (s - (iter + 1)) + chunk := by
        have h1 : s - iter = (s - (iter + 1)) + 1 := by omega
        rw [h1, Nat.mul_succ]
      rw [ih (remaining - chunk) (iter + 1) (sent + chunk) (by omega)
        (by omega) (by omega)]
      have harith : sent + chunk + chunk * (s - (iter + 1)) =
          sent + chunk * (s - iter) := by omega
      rw [harith]
    · have hiter : iter = s := by omega
      subst hiter
      rw [if_pos (by simp [isStopped] : isStopped (some iter) iter = true)]
      have h0 : iter - iter = 0 := by omega
      rw [h0]
      have harith : sent + chunk * 0 = sent := by omega
      rw [harith]

/-- An I/O error raised during iteration `k` (before stop or end-of-stream)
is recorded in the `error` field with `finished = false`; the run returns
normally rather than propagating the exception. -/
theorem feederLoop_error (chunk : ℕ) (hchunk : 0 < chunk) (k : ℕ) :
    ∀ fuel remaining iter sent, remaining < fuel → iter ≤ k →
      chunk * (k - iter) < remaining →
      feederLoop chunk none (some k) fuel remaining iter sent =
        { frames_sent := sent + chunk * (k - iter), finished := false,
          error := some "io_error" } := by
  intro fuel
  induction fuel with
  | zero =>
    intro remaining iter sent h _ _
    omega
  | succ fuel ih =>
    intro remaining iter sent hf hs hrem
    simp only [feederLoop]
    rw [if_neg (by simp [isStopped] : ¬ isStopped none iter = true)]
    rcases Nat.lt_or_ge iter k with hlt | hge
    · have hchr : chunk ≤ chunk * (k - iter) := by
        have h1 : 1 ≤ k - iter := by omega
        calc chunk = chunk * 1 := by omega
          _ ≤ chunk * (k - iter) := Nat.mul_le_mul_left chunk h1
      rw [if_neg (by omega : ¬ remaining = 0),
        if_neg (by simp; omega : ¬ (some k : Option ℕ) = some iter)]
      have hminc : min chunk remaining = chunk :=
        Nat.min_eq_left (by omega)
      rw [hminc]
      have hmul : chunk * (k - iter) = chunk * (k - (iter + 1)) + chunk := by
        have h1 : k - iter = (k - (iter + 1)) + 1 := by omega
        rw [h1, Nat.mul_succ]
      rw [ih (remaining - chunk) (iter + 1) (sent + chunk) (by omega)
        (by omega) (by omega)]
      have harith : sent + chunk + chunk * (k - (iter + 1)) =
          sent + chunk * (k - iter) := by omega
      rw [harith]
    · have hiter : iter = k := by omega
      subst hiter
      rw [if_neg (by omega : ¬ remaining = 0), if_pos rfl]
      have h0 : iter - iter = 0 := by omega
      rw [h0]
      have harith : sent + chunk * 0 = sent := by omega
      rw [harith]

/-- C8: for every feeder run, `finished` ends `true` only on clean
end-of-stream — it then recorded no error and sent every remaining frame —
and never when the run was cut short by the external stop signal; a run
without stop or error does finish cleanly; and an I/O error during feeding
is recorded in the feeder's `error` field while the run returns normally
(the model is a total function — nothing is raised to the caller). -/
theorem C8_feeder_flags (chunk : ℕ) (stopAt errAt : Option ℕ)
    (fuel remaining iter sent : ℕ) (hchunk : 0 < chunk)
    (hfuel : remaining < fuel) :
    ((feederLoop chunk stopAt errAt fuel remaining iter sent).finished =
        true →
      (feederLoop chunk stopAt errAt fuel remaining iter sent).error = none ∧
      (feederLoop chunk stopAt errAt fuel remaining iter sent).frames_sent =
        sent + remaining) ∧
    (stopAt = none → errAt = none →
      feederLoop chunk stopAt errAt fuel remaining iter sent =
        { frames_sent := sent + remaining, finished := true, error := none }) ∧
    (∀ s, stopAt = some s → errAt = none → iter ≤ s →
      chunk * (s - iter) < remaining →
      feederLoop chunk stopAt errAt fuel remaining iter sent =
        { frames_sent := sent + chunk * (s - iter), finished := false,
          error := none }) ∧
    (∀ k, stopAt = none → errAt = some k → iter ≤ k →
      chunk * (k - iter) < remaining →
      feederLoop chunk stopAt errAt fuel remaining iter sent =
        { frames_sent := sent + chunk * (k - iter), finished := false,
          error := some "io_error" }) := by
  refine ⟨feederLoop_finished chunk stopAt errAt fuel remaining iter sent,
    ?_, ?_, ?_⟩
  · rintro rfl rfl
    exact feederLoop_clean chunk hchunk fuel remaining iter sent hfuel
  · rintro s rfl rfl hs hrem
    exact feederLoop_stopped chunk hchunk s fuel remaining iter sent hfuel
      hs hrem
  · rintro k rfl rfl hk hrem
    exact feederLoop_error chunk hchunk k fuel remaining iter sent hfuel
      hk hrem

/-- Witness for C8: a clean run over 5 frames in chunks of 2. -/
theorem C8_feeder_flags_witness :
    feederLoop 2 none none 6 5 0 0 =
      { frames_sent := 0 + 5, finished := true, error := none } :=
  (C8_feeder_flags 2 none none 6 5 0 0 (by decide) (by decide)).2.1 rfl rfl

end SttLocal
